import Mathlib

/-!
Verification of the vbump version-tracking core.

The repository's visible source (`handler.go`, `main.go`) contains the HTTP
handlers and process startup; the `Version` store and the SemVer model live
in files not present here, so those components are modelled from the
specification (each such definition carries a `Modelled from the spec:`
doc comment).  The handlers themselves are embedded from the source.
-/

/-- Modelled from the spec (§3, SemVer model; the semver source file is not
in the visible sources): an immutable major.minor.patch triple of
non-negative integers. -/
structure SemanticVersion where
  major : Nat
  minor : Nat
  patch : Nat
deriving DecidableEq, Repr

/-- Modelled from the spec (§7 error taxonomy; the Version store source is
not in the visible sources): the three error kinds of the core. -/
inductive VbumpError where
  | invalidFormat
  | notFound
  | corruptState
deriving DecidableEq, Repr

/-- Numeric value of a decimal digit character. -/
def charVal (c : Char) : Nat := c.toNat - 48

/-- Recursive form of the decimal representation, convenient for proofs. -/
def toDecimalRec (n : Nat) : List Char :=
  if _h : n < 10 then [Nat.digitChar n]
  else toDecimalRec (n / 10) ++ [Nat.digitChar (n % 10)]
decreasing_by
  exact Nat.div_lt_self (by omega) (by decide)

/-- Fuel-based decimal digit loop (structurally recursive, so it evaluates
in the kernel). -/
def toDecimalCore : Nat → Nat → List Char → List Char
  | 0, _, acc => acc
  | fuel + 1, n, acc =>
    if n < 10 then Nat.digitChar n :: acc
    else toDecimalCore fuel (n / 10) (Nat.digitChar (n % 10) :: acc)

/-- Decimal representation of a natural number, most significant digit
first, no zero padding (the canonical textual form of each component). -/
def toDecimal (n : Nat) : List Char := toDecimalCore (n + 1) n []

theorem toDecimalCore_eq_rec (fuel : Nat) :
    ∀ n acc, n < fuel → toDecimalCore fuel n acc = toDecimalRec n ++ acc := by
  induction fuel with
  | zero => intro n acc h; omega
  | succ fuel ih =>
    intro n acc h
    rw [toDecimalCore, toDecimalRec]
    by_cases h10 : n < 10
    · simp [h10]
    · have hdiv : n / 10 < n := Nat.div_lt_self (by omega) (by decide)
      simp only [h10, if_false, dif_neg h10]
      rw [ih (n / 10) _ (by omega)]
      simp

theorem toDecimal_eq_rec (n : Nat) : toDecimal n = toDecimalRec n := by
  have := toDecimalCore_eq_rec (n + 1) n [] (by omega)
  simpa [toDecimal] using this

/-- Modelled from the spec (§4.1 `Format`; the semver source file is not in
the visible sources): canonical `"major.minor.patch"` text, no
zero-padding. -/
def Format (v : SemanticVersion) : String :=
  ⟨toDecimal v.major ++ '.' :: (toDecimal v.minor ++ '.' :: toDecimal v.patch)⟩

/-- Consume a maximal run of decimal digits, accumulating their value. -/
def parseNatAux : List Char → Nat → Nat × List Char
  | c :: rest, acc =>
    if c.isDigit then parseNatAux rest (acc * 10 + charVal c) else (acc, c :: rest)
  | [], acc => (acc, [])

/-- Consume one or more decimal digits (`\d+`), returning their value and
the remaining characters; `none` when the input does not start with a
digit. -/
def parseNat : List Char → Option (Nat × List Char)
  | c :: rest => if c.isDigit then some (parseNatAux rest (charVal c)) else none
  | [] => none

/-- Consume a literal `'.'`. -/
def expectDot : List Char → Option (List Char)
  | c :: rest => if c = '.' then some rest else none
  | [] => none

/-- Modelled from the spec (§4.1 `Parse`; the semver source file is not in
the visible sources): accept exactly `^\d+\.\d+\.\d+$`, any other shape
fails with `InvalidFormat`. -/
def Parse (text : String) : Except VbumpError SemanticVersion :=
  match parseNat text.data with
  | none => .error .invalidFormat
  | some (ma, r0) =>
    match expectDot r0 with
    | none => .error .invalidFormat
    | some r1 =>
      match parseNat r1 with
      | none => .error .invalidFormat
      | some (mi, r2) =>
        match expectDot r2 with
        | none => .error .invalidFormat
        | some r3 =>
          match parseNat r3 with
          | none => .error .invalidFormat
          | some (pa, r4) =>
            if r4.isEmpty then .ok ⟨ma, mi, pa⟩ else .error .invalidFormat

/-- Match `\d+` and drop the matched digits, for the regex matcher. -/
def matchNumber : List Char → Option (List Char)
  | c :: rest => if c.isDigit then some (rest.dropWhile Char.isDigit) else none
  | [] => none

/-- The regular expression `^\d+\.\d+\.\d+$` from the spec, as a
character-level matcher: a nonempty digit run, a literal dot, a nonempty
digit run, a literal dot, a nonempty digit run, end of input. -/
def matchesSemverRegex (text : String) : Bool :=
  match matchNumber text.data with
  | none => false
  | some r0 =>
    match expectDot r0 with
    | none => false
    | some r1 =>
      match matchNumber r1 with
      | none => false
      | some r2 =>
        match expectDot r2 with
        | none => false
        | some r3 =>
          match matchNumber r3 with
          | none => false
          | some r4 => r4.isEmpty

example : matchesSemverRegex "1.0.0" = true := by decide
example : matchesSemverRegex "abc" = false := by decide
example : matchesSemverRegex "1.0.0-rc1" = false := by decide
example : Parse "3.1.4" = .ok ⟨3, 1, 4⟩ := rfl
example : Format ⟨0, 0, 1⟩ = "0.0.1" := rfl

/-! ### Decimal roundtrip: `Parse (Format v) = .ok v` -/

theorem digitChar_props :
    ∀ d < 10, (Nat.digitChar d).isDigit = true ∧ charVal (Nat.digitChar d) = d := by
  decide

theorem digitChar_isDigit {d : Nat} (h : d < 10) :
    (Nat.digitChar d).isDigit = true :=
  (digitChar_props d h).1

theorem charVal_digitChar {d : Nat} (h : d < 10) :
    charVal (Nat.digitChar d) = d :=
  (digitChar_props d h).2

theorem toDecimalRec_all_digits (n : Nat) :
    ∀ c ∈ toDecimalRec n, c.isDigit = true := by
  induction n using Nat.strong_induction_on with
  | _ n ih =>
    rw [toDecimalRec]
    by_cases h10 : n < 10
    · simp only [dif_pos h10, List.mem_singleton]
      rintro c rfl
      exact digitChar_isDigit h10
    · simp only [dif_neg h10, List.mem_append, List.mem_singleton]
      rintro c (hc | rfl)
      · exact ih (n / 10) (Nat.div_lt_self (by omega) (by decide)) c hc
      · exact digitChar_isDigit (Nat.mod_lt n (by omega))

theorem toDecimalRec_ne_nil (n : Nat) : toDecimalRec n ≠ [] := by
  rw [toDecimalRec]
  by_cases h10 : n < 10 <;> simp [h10]

/-- The digit-fold step used by `parseNatAux`. -/
def digitStep (a : Nat) (c : Char) : Nat := a * 10 + charVal c

theorem foldl_digitStep_toDecimalRec (n : Nat) :
    (toDecimalRec n).foldl digitStep 0 = n := by
  induction n using Nat.strong_induction_on with
  | _ n ih =>
    rw [toDecimalRec]
    by_cases h10 : n < 10
    · simp only [dif_pos h10, List.foldl_cons, List.foldl_nil, digitStep]
      rw [charVal_digitChar h10]
      omega
    · simp only [dif_neg h10, List.foldl_append, List.foldl_cons, List.foldl_nil]
      rw [ih (n / 10) (Nat.div_lt_self (by omega) (by decide))]
      simp only [digitStep]
      rw [charVal_digitChar (Nat.mod_lt n (by omega))]
      omega

/-- The remainders `parseNatAux` may stop at: empty, or headed by a
non-digit. -/
def noDigitHead : List Char → Prop
  | [] => True
  | c :: _ => c.isDigit = false

theorem parseNatAux_append (ds : List Char) (hds : ∀ c ∈ ds, c.isDigit = true) :
    ∀ rest acc, noDigitHead rest →
      parseNatAux (ds ++ rest) acc = (ds.foldl digitStep acc, rest) := by
  induction ds with
  | nil =>
    intro rest acc hrest
    cases rest with
    | nil => simp [parseNatAux]
    | cons c cs =>
      simp only [noDigitHead] at hrest
      simp [parseNatAux, hrest]
  | cons d ds ih =>
    intro rest acc hrest
    have hd : d.isDigit = true := hds d (List.mem_cons_self ..)
    simp only [List.cons_append, parseNatAux, hd, if_true, List.foldl_cons]
    exact ih (fun c hc => hds c (List.mem_cons_of_mem d hc)) rest _ hrest

theorem parseNat_toDecimal (n : Nat) (rest : List Char) (hrest : noDigitHead rest) :
    parseNat (toDecimal n ++ rest) = some (n, rest) := by
  rw [toDecimal_eq_rec]
  have hall := toDecimalRec_all_digits n
  have hval := foldl_digitStep_toDecimalRec n
  cases hd : toDecimalRec n with
  | nil => exact absurd hd (toDecimalRec_ne_nil n)
  | cons d ds =>
    rw [hd] at hall hval
    have hddig : d.isDigit = true := hall d (List.mem_cons_self ..)
    simp only [List.cons_append, parseNat, hddig, if_true]
    rw [parseNatAux_append ds (fun c hc => hall c (List.mem_cons_of_mem d hc)) rest _ hrest]
    simp only [List.foldl_cons, digitStep, Nat.zero_mul, Nat.zero_add] at hval
    rw [hval]

theorem Parse_Format (v : SemanticVersion) : Parse (Format v) = .ok v := by
  obtain ⟨ma, mi, pa⟩ := v
  simp only [Parse, Format]
  rw [parseNat_toDecimal ma _ (by simp [noDigitHead])]
  simp [expectDot]
  rw [parseNat_toDecimal mi _ (by simp [noDigitHead])]
  simp [expectDot]
  rw [show toDecimal pa = toDecimal pa ++ [] by simp]
  rw [parseNat_toDecimal pa [] (by simp [noDigitHead])]
  simp

/-! ### SemVer bump transitions and lexicographic order -/

/-- Modelled from the spec (§4.1 `BumpMajor`; the semver source file is not
in the visible sources): `{major+1, 0, 0}`. -/
def SemVer.BumpMajor (v : SemanticVersion) : SemanticVersion := ⟨v.major + 1, 0, 0⟩

/-- Modelled from the spec (§4.1 `BumpMinor`; the semver source file is not
in the visible sources): `{major, minor+1, 0}`. -/
def SemVer.BumpMinor (v : SemanticVersion) : SemanticVersion := ⟨v.major, v.minor + 1, 0⟩

/-- Modelled from the spec (§4.1 `BumpPatch`; the semver source file is not
in the visible sources): `{major, minor, patch+1}`. -/
def SemVer.BumpPatch (v : SemanticVersion) : SemanticVersion := ⟨v.major, v.minor, v.patch + 1⟩

/-- Modelled from the spec (§3): lexicographic strict order on
(major, minor, patch). -/
def svLt (a b : SemanticVersion) : Prop :=
  a.major < b.major ∨
    (a.major = b.major ∧
      (a.minor < b.minor ∨ (a.minor = b.minor ∧ a.patch < b.patch)))

theorem svLt_trans {a b c : SemanticVersion} (hab : svLt a b) (hbc : svLt b c) :
    svLt a c := by
  simp only [svLt] at *
  omega

theorem svLt_BumpMajor (v : SemanticVersion) : svLt v (SemVer.BumpMajor v) := by
  simp [svLt, SemVer.BumpMajor]

theorem svLt_BumpMinor (v : SemanticVersion) : svLt v (SemVer.BumpMinor v) := by
  simp [svLt, SemVer.BumpMinor]

theorem svLt_BumpPatch (v : SemanticVersion) : svLt v (SemVer.BumpPatch v) := by
  simp [svLt, SemVer.BumpPatch]

/-- The three bump kinds a request can name. -/
inductive BumpKind where
  | major
  | minor
  | patch
deriving DecidableEq, Repr

/-- The pure transition named by a bump kind. -/
def BumpKind.apply : BumpKind → SemanticVersion → SemanticVersion
  | .major => SemVer.BumpMajor
  | .minor => SemVer.BumpMinor
  | .patch => SemVer.BumpPatch

theorem svLt_apply (k : BumpKind) (v : SemanticVersion) : svLt v (k.apply v) := by
  cases k
  · exact svLt_BumpMajor v
  · exact svLt_BumpMinor v
  · exact svLt_BumpPatch v

/-! ### Persistence collaborator (spec §6) -/

/-- Modelled from the spec (§6; the persistence adapter source is not in
the visible sources): a project-keyed store of version strings, newest
binding first. -/
def PStore : Type := List (String × String)

/-- The `Load(project)` read: the stored text for a project, absent when no record
exists. -/
def load (s : PStore) (p : String) : Option String :=
  match List.find? (fun e => decide (e.1 = p)) s with
  | some e => some e.2
  | none => none

/-- The `Store(project, text)` write: unconditional overwrite of the project's
record. -/
def storePut (s : PStore) (p t : String) : PStore := (p, t) :: s

theorem load_storePut_same (s : PStore) (p t : String) :
    load (storePut s p t) p = some t := by
  simp [load, storePut, List.find?]

theorem load_storePut_other (s : PStore) (p t q : String) (h : q ≠ p) :
    load (storePut s p t) q = load s q := by
  simp only [load, storePut, List.find?]
  have hpq : ¬p = q := fun hc => h hc.symm
  simp [hpq]

/-! ### Version store operations (spec §4.2) -/

namespace Version

/-- Modelled from the spec (§4.2 `GetVersion`; the Version store source is
not in the visible sources): read the current record; `NotFound` when
absent; a record that fails to parse is `CorruptState`; otherwise the
canonical text. -/
def GetVersion (s : PStore) (p : String) : Except VbumpError String :=
  match load s p with
  | none => .error .notFound
  | some t =>
    match Parse t with
    | .error _ => .error .corruptState
    | .ok v => .ok (Format v)

/-- Modelled from the spec (§4.2 `SetVersion`; the Version store source is
not in the visible sources): parse the caller's text (`InvalidFormat` on
bad input), write it unconditionally as the new record in canonical form,
return the canonical form. -/
def SetVersion (s : PStore) (p t : String) : Except VbumpError String × PStore :=
  match Parse t with
  | .error _ => (.error .invalidFormat, s)
  | .ok v => (.ok (Format v), storePut s p (Format v))

/-- Modelled from the spec (§4.2 bumps; the Version store source is not in
the visible sources): atomic read-modify-write — load the current record
(the zero version when absent, `CorruptState` when unparseable), apply the
transition, persist, return canonical text. -/
def bumpWith (f : SemanticVersion → SemanticVersion) (s : PStore) (p : String) :
    Except VbumpError String × PStore :=
  match load s p with
  | none => (.ok (Format (f ⟨0, 0, 0⟩)), storePut s p (Format (f ⟨0, 0, 0⟩)))
  | some t =>
    match Parse t with
    | .error _ => (.error .corruptState, s)
    | .ok v => (.ok (Format (f v)), storePut s p (Format (f v)))

/-- The store-level `BumpMajor(project)` operation. -/
def BumpMajor (s : PStore) (p : String) : Except VbumpError String × PStore :=
  bumpWith SemVer.BumpMajor s p

/-- The store-level `BumpMinor(project)` operation. -/
def BumpMinor (s : PStore) (p : String) : Except VbumpError String × PStore :=
  bumpWith SemVer.BumpMinor s p

/-- The store-level `BumpPatch(project)` operation. -/
def BumpPatch (s : PStore) (p : String) : Except VbumpError String × PStore :=
  bumpWith SemVer.BumpPatch s p

/-- Modelled from the spec (§4.2 `BumpTransientMinor`; the Version store
source is not in the visible sources): parse, apply `BumpMinor`, return
canonical text; a pure function of the input with no store parameter. -/
def BumpTransientMinor (t : String) : Except VbumpError String :=
  match Parse t with
  | .error _ => .error .invalidFormat
  | .ok v => .ok (Format (SemVer.BumpMinor v))

/-- Modelled from the spec (§4.2 `BumpTransientPatch`; the Version store
source is not in the visible sources): parse, apply `BumpPatch`, return
canonical text; a pure function of the input with no store parameter. -/
def BumpTransientPatch (t : String) : Except VbumpError String :=
  match Parse t with
  | .error _ => .error .invalidFormat
  | .ok v => .ok (Format (SemVer.BumpPatch v))

end Version

/-! ### HTTP handlers and the `numberOfBumps` metric (from `handler.go` /
`main.go`) -/

/-- From `main.go`: the state of the `numberOfBumps` Prometheus counter
vector, labelled with `(project, element)`; absent labels count as 0. -/
def Metrics : Type := List ((String × String) × Nat)

/-- Current value of one labelled counter (a fresh label reads 0). -/
def Metrics.get (m : Metrics) (k : String × String) : Nat :=
  match List.find? (fun e => decide (e.1 = k)) m with
  | some e => e.2
  | none => 0

/-- The increment `numberOfBumps.With(labels).Inc()`: add one to the counter with the
given label pair. -/
def Metrics.inc (m : Metrics) (k : String × String) : Metrics :=
  (k, Metrics.get m k + 1) :: m

theorem Metrics.get_inc_same (m : Metrics) (k : String × String) :
    Metrics.get (Metrics.inc m k) k = Metrics.get m k + 1 := by
  simp [Metrics.get, Metrics.inc, List.find?]

theorem Metrics.get_inc_other (m : Metrics) (k j : String × String) (h : j ≠ k) :
    Metrics.get (Metrics.inc m k) j = Metrics.get m j := by
  simp only [Metrics.get, Metrics.inc, List.find?]
  have hkj : ¬k = j := fun hc => h hc.symm
  simp [hkj]

/-- Abstraction of a gin response: the status code written and the body. -/
structure HttpResponse where
  status : Nat
  body : String
deriving DecidableEq, Repr

namespace Handler

/-- From `handler.go` `OnMajor`: bump the major part, abort with 500 on
error (before the metric increment), otherwise increment
`numberOfBumps{project, "major"}` and answer 200 with the version. -/
def OnMajor (s : PStore) (m : Metrics) (project : String) :
    HttpResponse × PStore × Metrics :=
  match Version.BumpMajor s project with
  | (.error _, s') => (⟨500, ""⟩, s', m)
  | (.ok version, s') =>
    (⟨200, version⟩, s', Metrics.inc m (project, "major"))

/-- From `handler.go` `OnMinor`: as `OnMajor`, for the minor part. -/
def OnMinor (s : PStore) (m : Metrics) (project : String) :
    HttpResponse × PStore × Metrics :=
  match Version.BumpMinor s project with
  | (.error _, s') => (⟨500, ""⟩, s', m)
  | (.ok version, s') =>
    (⟨200, version⟩, s', Metrics.inc m (project, "minor"))

/-- From `handler.go` `OnPatch`: as `OnMajor`, for the patch part. -/
def OnPatch (s : PStore) (m : Metrics) (project : String) :
    HttpResponse × PStore × Metrics :=
  match Version.BumpPatch s project with
  | (.error _, s') => (⟨500, ""⟩, s', m)
  | (.ok version, s') =>
    (⟨200, version⟩, s', Metrics.inc m (project, "patch"))

end Handler

/-- Whether an operation result is a success. -/
def exceptOk {ε α : Type} : Except ε α → Bool
  | .ok _ => true
  | .error _ => false

/-! ### Sequences of serialized bump calls (spec §5: per-project mutual
exclusion makes each load-transition-persist step atomic, so a concurrent
execution is some interleaving = some sequence of atomic steps) -/

/-- One serialized mutating call: a bump of some kind on some project. -/
def runBump (s : PStore) (c : BumpKind × String) : PStore :=
  (Version.bumpWith c.1.apply s c.2).2

/-- The store after a sequence of serialized bump calls. -/
def runBumps (s : PStore) (calls : List (BumpKind × String)) : PStore :=
  calls.foldl runBump s

/-- The pure effect of a sequence of bump kinds on a version. -/
def applyAll (ks : List BumpKind) (v : SemanticVersion) : SemanticVersion :=
  ks.foldl (fun a k => k.apply a) v

/-! ### Store-level lemmas -/

theorem bumpWith_recorded (f : SemanticVersion → SemanticVersion) (s : PStore)
    (p : String) (v : SemanticVersion) (h : load s p = some (Format v)) :
    Version.bumpWith f s p = (.ok (Format (f v)), storePut s p (Format (f v))) := by
  simp [Version.bumpWith, h, Parse_Format]

theorem bumpWith_absent (f : SemanticVersion → SemanticVersion) (s : PStore)
    (p : String) (h : load s p = none) :
    Version.bumpWith f s p =
      (.ok (Format (f ⟨0, 0, 0⟩)), storePut s p (Format (f ⟨0, 0, 0⟩))) := by
  simp [Version.bumpWith, h]

theorem bumpWith_frame (f : SemanticVersion → SemanticVersion) (s : PStore)
    (q p : String) (h : p ≠ q) :
    load (Version.bumpWith f s q).2 p = load s p := by
  unfold Version.bumpWith
  cases hl : load s q with
  | none => simp [load_storePut_other s q _ p h]
  | some t =>
    cases hp : Parse t with
    | error e => simp [hp]
    | ok v => simp [hp, load_storePut_other s q _ p h]

theorem runBumps_recorded (p : String) (calls : List (BumpKind × String))
    (hcalls : ∀ c ∈ calls, c.2 = p) :
    ∀ s v, load s p = some (Format v) →
      load (runBumps s calls) p = some (Format (applyAll (calls.map Prod.fst) v)) := by
  induction calls with
  | nil =>
    intro s v h
    simpa [runBumps, applyAll] using h
  | cons c cs ih =>
    intro s v h
    obtain ⟨k, q⟩ := c
    have hq : q = p := hcalls (k, q) (List.mem_cons_self ..)
    subst hq
    simp only [runBumps, List.foldl_cons, List.map_cons]
    have hstep := bumpWith_recorded k.apply s q v h
    have hload : load (runBump s (k, q)) q = some (Format (k.apply v)) := by
      simp [runBump, hstep, load_storePut_same]
    have := ih (fun c hc => hcalls c (List.mem_cons_of_mem _ hc)) (runBump s (k, q))
      (k.apply v) hload
    simpa [runBumps, applyAll] using this

theorem svLt_applyAll (ks : List BumpKind) (v : SemanticVersion) (h : ks ≠ []) :
    svLt v (applyAll ks v) := by
  induction ks generalizing v with
  | nil => exact absurd rfl h
  | cons k ks ih =>
    by_cases hks : ks = []
    · subst hks
      simpa [applyAll] using svLt_apply k v
    · exact svLt_trans (svLt_apply k v)
        (by simpa [applyAll] using ih (k.apply v) hks)

/-! ### Parse accepts exactly the regular language `^\d+\.\d+\.\d+$` -/

theorem parseNatAux_snd (cs : List Char) :
    ∀ acc, (parseNatAux cs acc).2 = cs.dropWhile Char.isDigit := by
  induction cs with
  | nil => intro acc; simp [parseNatAux, List.dropWhile]
  | cons c rest ih =>
    intro acc
    by_cases hc : c.isDigit
    · simp [parseNatAux, hc, List.dropWhile_cons, ih]
    · simp [parseNatAux, hc, List.dropWhile_cons]

theorem matchNumber_eq (cs : List Char) :
    matchNumber cs = Option.map Prod.snd (parseNat cs) := by
  cases cs with
  | nil => simp [matchNumber, parseNat]
  | cons c rest =>
    by_cases hc : c.isDigit
    · simp [matchNumber, parseNat, hc, parseNatAux_snd]
    · simp [matchNumber, parseNat, hc]

theorem matchesSemverRegex_eq_Parse (t : String) :
    matchesSemverRegex t = exceptOk (Parse t) := by
  unfold matchesSemverRegex Parse
  rw [matchNumber_eq]
  cases h0 : parseNat t.data with
  | none => simp [exceptOk]
  | some pr0 =>
    obtain ⟨ma, r0⟩ := pr0
    simp only [Option.map_some']
    cases h1 : expectDot r0 with
    | none => simp [exceptOk]
    | some r1 =>
      simp only []
      rw [matchNumber_eq]
      cases h2 : parseNat r1 with
      | none => simp [exceptOk]
      | some pr1 =>
        obtain ⟨mi, r2⟩ := pr1
        simp only [Option.map_some']
        cases h3 : expectDot r2 with
        | none => simp [exceptOk]
        | some r3 =>
          simp only []
          rw [matchNumber_eq]
          cases h4 : parseNat r3 with
          | none => simp [exceptOk]
          | some pr2 =>
            obtain ⟨pa, r4⟩ := pr2
            simp only [Option.map_some']
            by_cases he : r4.isEmpty <;> simp [he, exceptOk]

theorem Parse_error_eq (t : String) (e : VbumpError) (h : Parse t = .error e) :
    e = .invalidFormat := by
  unfold Parse at h
  repeat' split at h
  all_goals simp_all

/-! ### Auxiliary facts for the claims -/

theorem applyAll_replicate_patch (m : Nat) (v : SemanticVersion) :
    applyAll (List.replicate m BumpKind.patch) v =
      ⟨v.major, v.minor, v.patch + m⟩ := by
  induction m generalizing v with
  | zero => simp [applyAll]
  | succ m ih =>
    simp only [List.replicate_succ, applyAll, List.foldl_cons]
    have := ih (BumpKind.patch.apply v)
    simp only [applyAll] at this
    rw [this]
    simp [BumpKind.apply, SemVer.BumpPatch]
    omega

/-! ### The claims -/

/-- C1: for every project `p` and every text `t` matching
`major.minor.patch`, `SetVersion(p, t)` succeeds, unconditionally
overwrites `p`'s record (the store `s` is arbitrary, so in particular the
previous version may be larger), and returns the canonical form of the
parsed version; a subsequent `GetVersion(p)` returns that same canonical
string. -/
theorem C1_setVersion_overrides (s : PStore) (p t : String)
    (h : matchesSemverRegex t = true) :
    ∃ v, Parse t = .ok v ∧
      Version.SetVersion s p t = (.ok (Format v), storePut s p (Format v)) ∧
      Version.GetVersion (Version.SetVersion s p t).2 p = .ok (Format v) := by
  have heq := (matchesSemverRegex_eq_Parse t).symm.trans h
  cases hp : Parse t with
  | error e =>
    rw [hp] at heq
    simp [exceptOk] at heq
  | ok v =>
    refine ⟨v, rfl, ?_, ?_⟩
    · simp [Version.SetVersion, hp]
    · simp [Version.SetVersion, hp, Version.GetVersion, load_storePut_same,
        Parse_Format]

/-- Witness for C1: setting `"1.0.0"` over a record at `"5.2.3"` succeeds
and `GetVersion` then reads `"1.0.0"`. -/
theorem C1_witness :
    matchesSemverRegex "1.0.0" = true ∧
      ∃ v, Parse "1.0.0" = .ok v ∧
        Version.SetVersion [("p", "5.2.3")] "p" "1.0.0" =
          (.ok (Format v), storePut [("p", "5.2.3")] "p" (Format v)) ∧
        Version.GetVersion (Version.SetVersion [("p", "5.2.3")] "p" "1.0.0").2 "p" =
          .ok (Format v) :=
  ⟨by decide, C1_setVersion_overrides [("p", "5.2.3")] "p" "1.0.0" (by decide)⟩

/-- C2: every bump on an absent project starts from `0.0.0` before applying
the transition; in particular `BumpPatch` returns `"0.0.1"`, the stored
record becomes `0.0.1`, and no `NotFound` failure occurs. -/
theorem C2_bump_absent_starts_at_zero (s : PStore) (p : String)
    (h : load s p = none) :
    Version.BumpMajor s p = (.ok "1.0.0", storePut s p "1.0.0") ∧
    Version.BumpMinor s p = (.ok "0.1.0", storePut s p "0.1.0") ∧
    Version.BumpPatch s p = (.ok "0.0.1", storePut s p "0.0.1") ∧
    Version.GetVersion (Version.BumpPatch s p).2 p = .ok "0.0.1" := by
  refine ⟨bumpWith_absent _ s p h, bumpWith_absent _ s p h,
    bumpWith_absent _ s p h, ?_⟩
  have hb := bumpWith_absent SemVer.BumpPatch s p h
  rw [show Version.BumpPatch s p = Version.bumpWith SemVer.BumpPatch s p from rfl, hb]
  simp only []
  rw [show Format (SemVer.BumpPatch ⟨0, 0, 0⟩) = Format ⟨0, 0, 1⟩ from rfl]
  simp only [Version.GetVersion, load_storePut_same, Parse_Format]
  rfl

/-- Witness for C2: bumping the absent project `"proj"` of the empty store. -/
theorem C2_witness :
    load ([] : PStore) "proj" = none ∧
      (Version.BumpMajor [] "proj" = (.ok "1.0.0", storePut [] "proj" "1.0.0") ∧
      Version.BumpMinor [] "proj" = (.ok "0.1.0", storePut [] "proj" "0.1.0") ∧
      Version.BumpPatch [] "proj" = (.ok "0.0.1", storePut [] "proj" "0.0.1") ∧
      Version.GetVersion (Version.BumpPatch [] "proj").2 "proj" = .ok "0.0.1") :=
  ⟨rfl, C2_bump_absent_starts_at_zero [] "proj" rfl⟩

/-- C3: the three bump transitions compute exactly `{major+1,0,0}`,
`{major,minor+1,0}` and `{major,minor,patch+1}`, as total functions on
every `SemanticVersion`. -/
theorem C3_bump_transitions (v : SemanticVersion) :
    SemVer.BumpMajor v = ⟨v.major + 1, 0, 0⟩ ∧
    SemVer.BumpMinor v = ⟨v.major, v.minor + 1, 0⟩ ∧
    SemVer.BumpPatch v = ⟨v.major, v.minor, v.patch + 1⟩ :=
  ⟨rfl, rfl, rfl⟩

/-- C4: under the mandated per-project serialization (each bump is one
atomic load-transition-persist step, so a concurrent execution is some
sequence of such steps), N BumpPatch calls on the same initially-absent
project yield a final stored version of exactly `0.0.N` — no bump lost or
double-applied — while a bump of any kind on a distinct project leaves the
project's record untouched. -/
theorem C4_concurrent_patch_bumps (s : PStore) (p q : String) (k : BumpKind)
    (n : Nat) (h : load s p = none) (hn : 0 < n) (hq : q ≠ p) :
    Version.GetVersion (runBumps s (List.replicate n (BumpKind.patch, p))) p =
        .ok (Format ⟨0, 0, n⟩) ∧
      load (runBump s (k, q)) p = load s p := by
  constructor
  · obtain ⟨m, rfl⟩ : ∃ m, n = m + 1 := ⟨n - 1, by omega⟩
    rw [List.replicate_succ]
    simp only [runBumps, List.foldl_cons]
    have hstep : runBump s (BumpKind.patch, p) = storePut s p (Format ⟨0, 0, 1⟩) := by
      simp [runBump, bumpWith_absent _ s p h]
      rfl
    have hload : load (runBump s (BumpKind.patch, p)) p = some (Format ⟨0, 0, 1⟩) := by
      rw [hstep]; exact load_storePut_same s p _
    have hfin := runBumps_recorded p (List.replicate m (BumpKind.patch, p))
      (by intro c hc; have := List.eq_of_mem_replicate hc; rw [this])
      (runBump s (BumpKind.patch, p)) ⟨0, 0, 1⟩ hload
    rw [List.map_replicate] at hfin
    rw [applyAll_replicate_patch] at hfin
    have hfin' : load (List.foldl runBump (runBump s (BumpKind.patch, p))
        (List.replicate m (BumpKind.patch, p))) p =
        some (Format ⟨0, 0, m + 1⟩) := by
      rw [show (runBumps (runBump s (BumpKind.patch, p))
        (List.replicate m (BumpKind.patch, p))) = (List.foldl runBump
        (runBump s (BumpKind.patch, p)) (List.replicate m (BumpKind.patch, p))) from rfl] at hfin
      simpa [Nat.add_comm] using hfin
    simp [Version.GetVersion, hfin', Parse_Format]
  · exact bumpWith_frame _ s q p (Ne.symm hq)

/-- Witness for C4: three serialized patch bumps on the absent project
`"a"` of the empty store end at `0.0.3`; a major bump on `"b"` leaves
`"a"` absent. -/
theorem C4_witness :
    Version.GetVersion
        (runBumps ([] : PStore) (List.replicate 3 (BumpKind.patch, "a"))) "a" =
        .ok (Format ⟨0, 0, 3⟩) ∧
      load (runBump ([] : PStore) (BumpKind.major, "b")) "a" = load ([] : PStore) "a" :=
  C4_concurrent_patch_bumps [] "a" "b" BumpKind.major 3 rfl (by decide) (by decide)

/-- C5: a persisted record that fails to parse surfaces as `CorruptState`
on read and on every bump, an error kind distinct from `InvalidFormat` and
`NotFound`; the corrupt record is not auto-repaired (the store is returned
unchanged, no reset to zero). -/
theorem C5_corrupt_state (s : PStore) (p t : String)
    (hl : load s p = some t) (hbad : exceptOk (Parse t) = false) :
    Version.GetVersion s p = .error .corruptState ∧
    Version.BumpMajor s p = (.error .corruptState, s) ∧
    Version.BumpMinor s p = (.error .corruptState, s) ∧
    Version.BumpPatch s p = (.error .corruptState, s) ∧
    VbumpError.corruptState ≠ VbumpError.invalidFormat ∧
    VbumpError.corruptState ≠ VbumpError.notFound := by
  cases hp : Parse t with
  | ok v => rw [hp] at hbad; simp [exceptOk] at hbad
  | error e =>
    refine ⟨?_, ?_, ?_, ?_, by decide, by decide⟩ <;>
      simp [Version.GetVersion, Version.BumpMajor, Version.BumpMinor,
        Version.BumpPatch, Version.bumpWith, hl, hp]

/-- Witness for C5: a store whose record for `"p"` is the unparseable text
`"abc"`. -/
theorem C5_witness :
    load [("p", "abc")] "p" = some "abc" ∧
    exceptOk (Parse "abc") = false ∧
      (Version.GetVersion [("p", "abc")] "p" = .error .corruptState ∧
      Version.BumpMajor [("p", "abc")] "p" = (.error .corruptState, [("p", "abc")]) ∧
      Version.BumpMinor [("p", "abc")] "p" = (.error .corruptState, [("p", "abc")]) ∧
      Version.BumpPatch [("p", "abc")] "p" = (.error .corruptState, [("p", "abc")]) ∧
      VbumpError.corruptState ≠ VbumpError.invalidFormat ∧
      VbumpError.corruptState ≠ VbumpError.notFound) :=
  ⟨rfl, rfl, C5_corrupt_state [("p", "abc")] "p" "abc" rfl rfl⟩

/-- C6: from any valid stored version `v`, any nonempty sequence of
serialized bump calls on the same project ends at a stored version strictly
greater than `v` in the lexicographic order on (major, minor, patch). -/
theorem C6_bump_monotonic (s : PStore) (p : String) (v : SemanticVersion)
    (calls : List (BumpKind × String)) (hne : calls ≠ [])
    (hcalls : ∀ c ∈ calls, c.2 = p) (h : load s p = some (Format v)) :
    ∃ w, load (runBumps s calls) p = some (Format w) ∧ svLt v w ∧
      Version.GetVersion (runBumps s calls) p = .ok (Format w) := by
  have hload := runBumps_recorded p calls hcalls s v h
  refine ⟨applyAll (calls.map Prod.fst) v, hload, ?_, ?_⟩
  · exact svLt_applyAll _ v (by simpa using hne)
  · simp [Version.GetVersion, hload, Parse_Format]

/-- Witness for C6: starting at `2.5.9`, a minor bump then a patch bump end
strictly above `2.5.9` (at `2.6.1`). -/
theorem C6_witness :
    ∃ w, load (runBumps [("proj", "2.5.9")]
          [(BumpKind.minor, "proj"), (BumpKind.patch, "proj")]) "proj" =
        some (Format w) ∧ svLt ⟨2, 5, 9⟩ w ∧
      Version.GetVersion (runBumps [("proj", "2.5.9")]
          [(BumpKind.minor, "proj"), (BumpKind.patch, "proj")]) "proj" =
        .ok (Format w) :=
  C6_bump_monotonic [("proj", "2.5.9")] "proj" ⟨2, 5, 9⟩
    [(BumpKind.minor, "proj"), (BumpKind.patch, "proj")]
    (by decide) (by decide) rfl

/-- C7: the transient bumps parse their input, apply `BumpMinor`
respectively `BumpPatch`, and return the canonical text; they are pure
functions of the input text alone (they take no store), and in particular
`BumpTransientMinor("3.1.4")` returns `"3.2.0"`. -/
theorem C7_transient (t : String) (v : SemanticVersion) (h : Parse t = .ok v) :
    Version.BumpTransientMinor t = .ok (Format (SemVer.BumpMinor v)) ∧
    Version.BumpTransientPatch t = .ok (Format (SemVer.BumpPatch v)) ∧
    Version.BumpTransientMinor "3.1.4" = .ok "3.2.0" := by
  refine ⟨?_, ?_, rfl⟩ <;>
    simp [Version.BumpTransientMinor, Version.BumpTransientPatch, h]

/-- Witness for C7: the transient bumps of `"3.1.4"`. -/
theorem C7_witness :
    Parse "3.1.4" = .ok ⟨3, 1, 4⟩ ∧
      (Version.BumpTransientMinor "3.1.4" = .ok (Format (SemVer.BumpMinor ⟨3, 1, 4⟩)) ∧
      Version.BumpTransientPatch "3.1.4" = .ok (Format (SemVer.BumpPatch ⟨3, 1, 4⟩)) ∧
      Version.BumpTransientMinor "3.1.4" = .ok "3.2.0") :=
  ⟨rfl, C7_transient "3.1.4" ⟨3, 1, 4⟩ rfl⟩

/-- C8: `Parse` succeeds exactly on strings matching `^\d+\.\d+\.\d+$` and
fails with `InvalidFormat` on every other input; consequently
`SetVersion(p, "abc")` fails with `InvalidFormat` and leaves the store
unchanged. -/
theorem C8_parse_exactly_regex (t : String) (s : PStore) (p : String) :
    (if matchesSemverRegex t then ∃ v, Parse t = .ok v
      else Parse t = .error .invalidFormat) ∧
    Version.SetVersion s p "abc" = (.error .invalidFormat, s) := by
  constructor
  · have heq := matchesSemverRegex_eq_Parse t
    by_cases h : matchesSemverRegex t = true
    · rw [if_pos h]
      rw [h] at heq
      cases hp : Parse t with
      | error e => rw [hp] at heq; simp [exceptOk] at heq
      | ok v => exact ⟨v, rfl⟩
    · rw [if_neg h]
      rw [Bool.not_eq_true] at h
      rw [h] at heq
      cases hp : Parse t with
      | ok v => rw [hp] at heq; simp [exceptOk] at heq
      | error e => rw [Parse_error_eq t e hp]
  · rfl

/-- C9: `GetVersion` on a project with no record fails with `NotFound` (and,
being a read, returns no modified store at all). -/
theorem C9_get_absent_notFound (s : PStore) (p : String) (h : load s p = none) :
    Version.GetVersion s p = .error .notFound := by
  simp [Version.GetVersion, h]

/-- Witness for C9: reading `"new-project"` from the empty store. -/
theorem C9_witness :
    load ([] : PStore) "new-project" = none ∧
      Version.GetVersion [] "new-project" = .error .notFound :=
  ⟨rfl, C9_get_absent_notFound [] "new-project" rfl⟩

/-- C10: in `OnMajor`, `OnMinor` and `OnPatch`, the `numberOfBumps` counter
for the `(project, element)` label pair goes up by exactly one when the
bump succeeds and is untouched when the bump fails, every other label pair
is untouched, and a failing bump answers 500 where a successful one
answers 200 — so each counter equals the number of successful bumps for
its project and element. -/
theorem C10_metrics_increment (s : PStore) (m : Metrics) (p : String)
    (k : String × String) :
    (Metrics.get (Handler.OnMajor s m p).2.2 k =
        Metrics.get m k +
          (if exceptOk (Version.BumpMajor s p).1 = true ∧ k = (p, "major")
            then 1 else 0) ∧
      (Handler.OnMajor s m p).1.status =
        (if exceptOk (Version.BumpMajor s p).1 = true then 200 else 500)) ∧
    (Metrics.get (Handler.OnMinor s m p).2.2 k =
        Metrics.get m k +
          (if exceptOk (Version.BumpMinor s p).1 = true ∧ k = (p, "minor")
            then 1 else 0) ∧
      (Handler.OnMinor s m p).1.status =
        (if exceptOk (Version.BumpMinor s p).1 = true then 200 else 500)) ∧
    (Metrics.get (Handler.OnPatch s m p).2.2 k =
        Metrics.get m k +
          (if exceptOk (Version.BumpPatch s p).1 = true ∧ k = (p, "patch")
            then 1 else 0) ∧
      (Handler.OnPatch s m p).1.status =
        (if exceptOk (Version.BumpPatch s p).1 = true then 200 else 500)) := by
  refine ⟨?_, ?_, ?_⟩
  · cases hb : Version.BumpMajor s p with
    | mk r s' =>
      cases r with
      | error e => simp [Handler.OnMajor, hb, exceptOk]
      | ok ver =>
        by_cases hk : k = (p, "major")
        · subst hk
          simp [Handler.OnMajor, hb, exceptOk, Metrics.get_inc_same]
        · simp [Handler.OnMajor, hb, exceptOk, hk,
            Metrics.get_inc_other m (p, "major") k hk]
  · cases hb : Version.BumpMinor s p with
    | mk r s' =>
      cases r with
      | error e => simp [Handler.OnMinor, hb, exceptOk]
      | ok ver =>
        by_cases hk : k = (p, "minor")
        · subst hk
          simp [Handler.OnMinor, hb, exceptOk, Metrics.get_inc_same]
        · simp [Handler.OnMinor, hb, exceptOk, hk,
            Metrics.get_inc_other m (p, "minor") k hk]
  · cases hb : Version.BumpPatch s p with
    | mk r s' =>
      cases r with
      | error e => simp [Handler.OnPatch, hb, exceptOk]
      | ok ver =>
        by_cases hk : k = (p, "patch")
        · subst hk
          simp [Handler.OnPatch, hb, exceptOk, Metrics.get_inc_same]
        · simp [Handler.OnPatch, hb, exceptOk, hk,
            Metrics.get_inc_other m (p, "patch") k hk]
